import Mathlib

/-!
Verification of the tart compiler semantic core against its specification.

Each namespace below is a shallow embedding of one subsystem of the source:

* `CFGExpr`  — the `isSingular` overrides of `Expr` subclasses
               (trunk/compiler/lib/CFG/Expr.cpp).
* `Sweep`    — the mark/sweep allocator (trunk/compiler/lib/Common/GC.cpp).
* `Scopes`   — the scope hierarchy (trunk/compiler/include/tart/CFG/Scope.h).
* `UnionGen` — union type tests (trunk/compiler/lib/Gen/CodeGenExpr.cpp).
* `CallTy`   — result-type reduction (CallExpr::singularResultType in
               Expr.cpp and ExprAnalyzer::reduceReturnType in
               trunk/compiler/lib/Sema/ExprAnalyzerCall.cpp).
* `Sema`     — overload gathering, ADL and the diagnostics of
               ExprAnalyzer::callName (ExprAnalyzerCall.cpp).
* `Ctor`     — constructor candidate search (ExprAnalyzer::callConstructor).

Machinery whose implementation lives outside the files of this repository
snapshot (e.g. `Type::isSingular`, `ParameterAssignmentsBuilder`,
`DefnAnalyzer`) is represented by boolean attributes carried on the embedded
values; the control flow of the embedded functions follows the C++ source
line by line.
-/

namespace CFGExpr

/-- A result type as seen by `Expr::isSingular` overrides: all the code in
Expr.cpp consults is `type()->isSingular()`, so the embedding keeps just that
attribute (the implementation of `Type::isSingular` is in Type.cpp, outside
this snapshot). -/
structure STy where
  singular : Bool
  deriving DecidableEq, Repr

/-- A `ValueDefn` as consulted by `LValueExpr::isSingular` and
`InitVarExpr::isSingular`: only `isSingular()` is used. -/
structure SValueDefn where
  singular : Bool
  deriving DecidableEq, Repr

/-- A `FunctionDefn` as consulted by `BoundMethodExpr::isSingular` and
`FnCallExpr::isSingular`: only `isSingular()` is used. -/
structure SFunctionDefn where
  singular : Bool
  deriving DecidableEq, Repr

/-- A `CallCandidate` as consulted by `CallExpr::isSingular`: only
`isSingular()` and `isCulled()` are used there. -/
structure SCallCandidate where
  singular : Bool
  deriving DecidableEq, Repr

mutual
/-- The expression subclasses of Expr.cpp that override `isSingular`,
with exactly the operands those overrides read.  `ty` is the `type_`
field of the `Expr` base class. -/
inductive SExpr : Type where
  | unary (ty : STy) (arg : SExpr)
  | binary (ty : STy) (first second : SExpr)
  | binaryOpcode (ty : STy) (first second : SExpr)
  | lvalue (ty : STy) (base : Option SExpr) (value : SValueDefn)
  | scopeName (ty : STy)
  | initVar (ty : STy) (var : SValueDefn) (init : SExpr)
  | boundMethod (ty : STy) (selfArg : Option SExpr) (method : SFunctionDefn)
  | callE (ty : STy) (function : Option SExpr)
      (candidates : List SCallCandidate) (args : SExprList)
  | fnCall (ty : STy) (function : SFunctionDefn) (args : SExprList)
  | indirectCall (ty : STy) (function : SExpr) (args : SExprList)
  | newE (ty : STy)
  | instanceOf (ty : STy) (value : SExpr) (toType : STy)

/-- Argument lists of `ArglistExpr` nodes. -/
inductive SExprList : Type where
  | nil
  | cons (e : SExpr) (rest : SExprList)
end

mutual
/-- `isSingular`, transcribed from the overrides in Expr.cpp:
  * `UnaryExpr`: `type()->isSingular() && arg_->isSingular()`
  * `BinaryExpr` / `BinaryOpcodeExpr`: type and both operands
  * `LValueExpr`: `(base_ == NULL || base_->isSingular()) && value_->isSingular()`
  * `ScopeNameExpr`: `return true`
  * `InitVarExpr`: `initExpr_->isSingular() && var->isSingular()`
  * `BoundMethodExpr`: `(selfArg_ == NULL || selfArg_->isSingular()) && method_->isSingular()`
  * `CallExpr`: arglist check, then candidate or function check
  * `FnCallExpr` / `IndirectCallExpr`: `function_->isSingular() && ArglistExpr::isSingular()`
  * `NewExpr`: `type()->isSingular()`
  * `InstanceOfExpr`: `value_->isSingular() && toType_->isSingular()` -/
def SExpr.isSingular : SExpr → Bool
  | .unary ty a => ty.singular && a.isSingular
  | .binary ty f s => ty.singular && f.isSingular && s.isSingular
  | .binaryOpcode ty f s => ty.singular && f.isSingular && s.isSingular
  | .lvalue _ base v =>
      (match base with
       | none => true
       | some b => b.isSingular) && v.singular
  | .scopeName _ => true
  | .initVar _ v i => i.isSingular && v.singular
  | .boundMethod _ selfArg m =>
      (match selfArg with
       | none => true
       | some s => s.isSingular) && m.singular
  | .callE _ function cands args =>
      if !args.allSingular then false
      else if !cands.isEmpty then
        decide (cands.length = 1) &&
          (match cands with
           | [] => false
           | c :: _ => c.singular)
      else
        match function with
        | none => false
        | some f => f.isSingular
  | .fnCall _ f args => f.singular && args.allSingular
  | .indirectCall _ f args => f.isSingular && args.allSingular
  | .newE ty => ty.singular
  | .instanceOf _ v toType => v.isSingular && toType.singular

/-- `ArglistExpr::isSingular`: true iff every argument is singular
(the node's own type is not consulted). -/
def SExprList.allSingular : SExprList → Bool
  | .nil => true
  | .cons e rest => e.isSingular && rest.allSingular
end

/-- The `type_` field of the node. -/
def SExpr.exprTy : SExpr → STy
  | .unary ty _ => ty
  | .binary ty _ _ => ty
  | .binaryOpcode ty _ _ => ty
  | .lvalue ty _ _ => ty
  | .scopeName ty => ty
  | .initVar ty _ _ => ty
  | .boundMethod ty _ _ => ty
  | .callE ty _ _ _ => ty
  | .fnCall ty _ _ => ty
  | .indirectCall ty _ _ => ty
  | .newE ty => ty
  | .instanceOf ty _ _ => ty

/-- Convert an embedded argument list to a `List`. -/
def SExprList.toList : SExprList → List SExpr
  | .nil => []
  | .cons e rest => e :: SExprList.toList rest

/-- The direct child expressions of the node (the operands the claim calls
"children": for `LValueExpr` the base, for arglist nodes the arguments and,
where present, the function expression). -/
def SExpr.children : SExpr → List SExpr
  | .unary _ a => [a]
  | .binary _ f s => [f, s]
  | .binaryOpcode _ f s => [f, s]
  | .lvalue _ base _ => base.toList
  | .scopeName _ => []
  | .initVar _ _ i => [i]
  | .boundMethod _ selfArg _ => selfArg.toList
  | .callE _ function _ args => function.toList ++ args.toList
  | .fnCall _ _ args => args.toList
  | .indirectCall _ f args => f :: args.toList
  | .newE _ => []
  | .instanceOf _ v _ => [v]

/-- The property claimed for every node: its own result type is singular and
every child expression is singular (written from the spec sentence, to be
compared against `SExpr.isSingular` from the source). -/
def SExpr.claimedSingular (e : SExpr) : Bool :=
  e.exprTy.singular && (e.children.all fun c => c.isSingular)

/-- All children of a node are singular. -/
def SExpr.childrenSingular (e : SExpr) : Bool :=
  e.children.all fun c => c.isSingular

/-- A concrete `FnCallExpr`: its own result type is NOT singular, its
function is singular, and it has no arguments. -/
def fnCallEx : SExpr := .fnCall ⟨false⟩ ⟨true⟩ .nil

end CFGExpr

namespace Sweep

/-- A garbage-collectible object as seen by `GC::sweep`: only the
`marked_` bit matters (`oid` distinguishes objects). -/
structure Obj where
  oid : Nat
  marked : Bool
  deriving DecidableEq, Repr

/-- `GC::sweep` from GC.cpp, on the allocation list: walk the list; a
marked object is kept (its `marked_` bit is NOT cleared by this loop), an
unmarked one is unlinked and freed.  (The mark-clearing `sweepCallback`
exists in the file but `sweep` does not invoke it — the invocation is in
commented-out code.) -/
def sweep : List Obj → List Obj
  | [] => []
  | gc :: rest => if gc.marked then gc :: sweep rest else sweep rest

/-- `GC::sweepCallback` from GC.cpp: a marked object has its mark cleared
and is kept (`false` = do not free); an unmarked object is destroyed
(`true` = free).  Present for contrast: `sweep` does not call it. -/
def sweepCallback (gc : Obj) : Obj × Bool :=
  if gc.marked then ({ gc with marked := false }, false) else (gc, true)

end Sweep

namespace Scopes

/-- The concrete scope kinds of Scope.h.  Members are (interned-name,
definition-id) pairs; `OrderedSymbolTable` itself lives outside this
snapshot, so lookup below is modelled from the spec ("maps a name to the
ordered sequence of entries declared under that name").
  * `iterable` — `IterableScope` (parent may be null);
  * `localS` — `LocalScope : public GC, public IterableScope`
    (its constructor asserts the parent is non-null);
  * `delegating` — `DelegatingScope` with its delegate and parent fields. -/
inductive SK : Type where
  | iterable (members : List (Nat × Nat)) (parent : Option SK)
  | localS (members : List (Nat × Nat)) (parent : SK)
  | delegating (delegate : SK) (parent : Option SK)

/-- `parentScope()`. `DelegatingScope::parentScope` returns its own
`parent` member (Scope.h line 146). -/
def parentScope : SK → Option SK
  | .iterable _ p => p
  | .localS _ p => some p
  | .delegating _ p => p

/-- `allowOverloads()` under C++ virtual dispatch:
`IterableScope` overrides it to return `true` (Scope.h line 108);
`LocalScope` declares NO override, so a `LocalScope` receiver resolves to
`IterableScope::allowOverloads` and yields `true`;
`DelegatingScope` forwards to its delegate (line 152). -/
def allowOverloads : SK → Bool
  | .iterable _ _ => true
  | .localS _ _ => true
  | .delegating d _ => allowOverloads d

/-- `getBaseExpr()`: the `Scope` base returns `NULL` (line 50) and neither
`IterableScope` nor `LocalScope` overrides it; `DelegatingScope` forwards
to its delegate (line 153).  The expression is represented by an id. -/
def getBaseExpr : SK → Option Nat
  | .iterable _ _ => none
  | .localS _ _ => none
  | .delegating d _ => getBaseExpr d

/-- `lookupMember(ident, defs, inherit)`: for the table-backed scopes,
modelled from the spec ("appends matching definitions from this scope");
inheritance into supertype scopes does not apply to these plain scopes.
`DelegatingScope` forwards to its delegate (Scope.h lines 148-150). -/
def lookupMember : SK → Nat → Bool → List Nat
  | .iterable mems _, n, _ => (mems.filter fun m => m.1 == n).map (·.2)
  | .localS mems _, n, _ => (mems.filter fun m => m.1 == n).map (·.2)
  | .delegating d _, n, inherit => lookupMember d n inherit

/-- `addMember(d)`: table-backed scopes append the entry (modelled from
the spec's ordered-symbol-table description; the C++ bodies are outside
this snapshot); `DelegatingScope` forwards to its delegate
(Scope.h line 147). -/
def addMember : SK → Nat × Nat → SK
  | .iterable mems p, m => .iterable (mems ++ [m]) p
  | .localS mems p, m => .localS (mems ++ [m]) p
  | .delegating d p, m => .delegating (addMember d m) p

/-- The `DelegatingScope(Scope * s, Scope * p)` constructor, Scope.h line
139: the initializer list sets `delegate(s), parent(p)`; the body then
executes `p = s->parentScope();`, which assigns the local PARAMETER `p`,
not the member — a dead store, transcribed here as an unused binding. -/
def mkDelegatingScope (s : SK) (p : Option SK) : SK :=
  let memberDelegate := s
  let memberParent := p
  let _p := parentScope s
  .delegating memberDelegate memberParent

/-- A concrete `LocalScope` (empty, with an empty module-level
`IterableScope` parent). -/
def localScopeEx : SK := .localS [] (.iterable [] none)

end Scopes

namespace UnionGen

/-- A member type of a union, as consulted by `genUnionTypeTest`: an
identity plus the attributes driving `numValueTypes()` and
`hasVoidType()`. -/
structure MTy where
  tid : Nat
  isValueType : Bool
  isVoid : Bool
  deriving DecidableEq, Repr

/-- A union type, by its member list.  Modelled from the spec: the
implementations of `numValueTypes`, `hasVoidType` and `getTypeIndex` are
in Type.cpp, outside this snapshot; the spec gives
"Union{members: [Type]} — tagged if any value-type member, untagged
(pointer-only) otherwise; has numValueTypes(), hasVoidType(),
getTypeIndex(t) (returns −1 on miss)". -/
structure UnionType where
  members : List MTy
  deriving DecidableEq, Repr

/-- Modelled from the spec: the number of value-type members. -/
def UnionType.numValueTypes (u : UnionType) : Nat :=
  (u.members.filter fun m => m.isValueType).length

/-- Modelled from the spec: whether void is a member. -/
def UnionType.hasVoidType (u : UnionType) : Bool :=
  u.members.any fun m => m.isVoid

/-- Modelled from the spec: the index of `t` among the members, or −1 on
miss. -/
def UnionType.getTypeIndex (u : UnionType) (t : MTy) : Int :=
  match u.members.findIdx? fun m => m == t with
  | some i => (i : Int)
  | none => -1

/-- The shape of the LLVM value produced by
`CodeGenerator::genUnionTypeTest` (the load-vs-extract choice driven by
`valIsLVal` only changes how the tag is fetched and is irrelevant here):
  * `constFalse` — the compile-time constant `ConstantInt::getFalse`;
  * `icmpEq i` — a runtime comparison of the stored tag with index `i`;
  * `compositeTest` — a runtime subtype test via `genCompositeTypeTest`. -/
inductive IRVal : Type where
  | constFalse
  | icmpEq (testIndex : Int)
  | compositeTest
  deriving DecidableEq, Repr

/-- `CodeGenerator::genUnionTypeTest`, CodeGenExpr.cpp lines 1387-1454:
if the union has value-type members or a void member, fetch the tag; if
`getTypeIndex(toType) < 0` return constant false, else compare the tag;
otherwise (reference types only) emit a composite type test with no
membership check at all. -/
def genUnionTypeTest (u : UnionType) (toType : MTy) : IRVal :=
  if u.numValueTypes > 0 || u.hasVoidType then
    let testIndex := u.getTypeIndex toType
    if testIndex < 0 then .constFalse
    else .icmpEq testIndex
  else
    .compositeTest

/-- A pointer-only union of two reference types. -/
def refUnionEx : UnionType :=
  { members := [⟨0, false, false⟩, ⟨1, false, false⟩] }

/-- A target type that is not a member of `refUnionEx`. -/
def nonMemberEx : MTy := ⟨2, false, false⟩

/-- A tagged union with one value-type member. -/
def taggedUnionEx : UnionType := { members := [⟨0, true, false⟩] }

end UnionGen

namespace CallTy

/-- A type as consulted by `CallExpr::singularResultType`: an identity
(for `isEqual`, which the embedding takes as equality of the model type)
and the `isSingular` attribute. -/
structure CTy where
  tid : Nat
  singular : Bool
  deriving DecidableEq, Repr

/-- A `FunctionDefn` as consulted by `singularResultType`: `isCtor()` and
the type of `functionType()->selfParam()`. -/
structure Method where
  isCtor : Bool
  selfParamType : CTy
  deriving DecidableEq, Repr

/-- A `CallCandidate` as consulted by `singularResultType`: its culled
flag, its method (null for function-typed callees), and the value of
`resultType()` (computed in CallCandidate.cpp, outside this snapshot, so
carried as an attribute). -/
structure Cand where
  culled : Bool
  method : Option Method
  resultType : CTy
  deriving DecidableEq, Repr

/-- The per-candidate type considered by `singularResultType`:
`ty = cc->resultType()`, replaced by the self-parameter type when the
candidate's method is a constructor (Expr.cpp lines 390-393). -/
def Cand.consideredType (cc : Cand) : CTy :=
  match cc.method with
  | some m => if m.isCtor then m.selfParamType else cc.resultType
  | none => cc.resultType

/-- The loop of `CallExpr::singularResultType` (Expr.cpp lines 382-403):
walk the candidates, skipping culled ones; the first non-culled candidate
fixes the type; a later non-culled candidate with an unequal type returns
NULL immediately; at the end return whatever was accumulated (NULL when
every candidate was culled or the list was empty). -/
def srtLoop : List Cand → Option CTy → Option CTy
  | [], acc => acc
  | cc :: rest, acc =>
      if cc.culled then srtLoop rest acc
      else
        match acc with
        | none => srtLoop rest (some cc.consideredType)
        | some s => if cc.consideredType = s then srtLoop rest (some s) else none

/-- `CallExpr::singularResultType`. -/
def singularResultType (cands : List Cand) : Option CTy :=
  srtLoop cands none

/-- The result of `ExprAnalyzer::reduceReturnType`: either an existing
type or a freshly allocated `ResultOfConstraint` over the call. -/
inductive ReducedTy : Type where
  | ty (t : CTy)
  | resultOfConstraint
  deriving DecidableEq, Repr

/-- `ExprAnalyzer::reduceReturnType` (ExprAnalyzerCall.cpp lines 480-491):
return `singularResultType()` when non-NULL, else a new
`ResultOfConstraint(call)`. -/
def reduceReturnType (cands : List Cand) : ReducedTy :=
  match singularResultType cands with
  | some t => .ty t
  | none => .resultOfConstraint

/-- The first non-culled candidate of the list, if any. -/
def firstNonCulled : List Cand → Option Cand
  | [] => none
  | cc :: rest => if cc.culled then firstNonCulled rest else some cc

/-- A concrete non-culled constructor candidate: its method is a
constructor with self-parameter type `⟨7, true⟩`, while the raw
`resultType()` is `⟨9, true⟩` (standing for void). -/
def ctorCandEx : Cand := ⟨false, some ⟨true, ⟨7, true⟩⟩, ⟨9, true⟩⟩

end CallTy

namespace Sema

/-- Storage classes of definitions (Defn.h, summarized by the spec's
`Global|Static|Instance|Local|Closure`). -/
inductive StorageClass : Type where
  | globalSC
  | staticSC
  | instanceSC
  | localSC
  | closureSC
  deriving DecidableEq, Repr

/-- A `FunctionDefn` as consulted by the overload machinery: its identity
(C++ pointer identity, used by the ADL `methodsFound` set), its storage
class, and the outcomes of the two external steps performed by
`addOverload` for this call's fixed argument list —
`analyzeValueDefn(method, Task_PrepConversion)` (DefnAnalyzer, outside
this snapshot) and `ParameterAssignmentsBuilder::assignFromAST(args)`
(CallCandidate.cpp, outside this snapshot). -/
structure SFn where
  fid : Nat
  storage : StorageClass
  analyzeOk : Bool
  assignOk : Bool
  deriving DecidableEq, Repr

/-- An overload candidate held by the `CallExpr`:
`methodCand` for a `FunctionDefn` overload (with the base expression used
to reach it, identified by a number), `ftypeCand` for a function-typed
l-value overload, whose `method()` is NULL. -/
inductive Cand : Type where
  | methodCand (base : Option Nat) (f : SFn)
  | ftypeCand (ftypeId : Nat)
  deriving DecidableEq, Repr

/-- `CallCandidate::method()` as a pointer identity: the function-defn id
or NULL. -/
def Cand.methodFid : Cand → Option Nat
  | .methodCand _ f => some f.fid
  | .ftypeCand _ => none

/-- `ExprAnalyzer::addOverload(call, baseExpr, method, args)`
(ExprAnalyzerCall.cpp lines 502-516): if `analyzeValueDefn` fails, return
false; otherwise build a `ParameterAssignments` from the AST arguments
and, only when that succeeds, push a new candidate; return true either
way.  No diagnostic is emitted on any path.  The returned pair is
(return value, updated candidate list). -/
def addOverload (cands : List Cand) (base : Option Nat) (f : SFn) :
    Bool × List Cand :=
  if !f.analyzeOk then (false, cands)
  else if f.assignOk then (true, cands ++ [.methodCand base f])
  else (true, cands)

/-- `addOverload(call, fn, ftype, args)` (lines 518-532): no
`analyzeValueDefn`; push a candidate iff `assignFromAST` succeeds; always
return true. -/
def addOverloadFty (cands : List Cand) (ftypeId : Nat) (assignOk : Bool) :
    Bool × List Cand :=
  if assignOk then (true, cands ++ [.ftypeCand ftypeId]) else (true, cands)

/-- The type of a callable variable, as dispatched by `callName` lines
109-113: a `FunctionType`, a `BoundMethodType` (whose `fnType()` is
used), or anything else (no overload is added, silently). -/
inductive VarTy : Type where
  | fnType (ftypeId : Nat) (assignOk : Bool)
  | boundMethod (ftypeId : Nat) (assignOk : Bool)
  | otherTy
  deriving DecidableEq, Repr

/-- One entry of the `results` list produced by `lookupName` in
`callName` (lines 95-134), as far as the loop inspects it:
  * `fnResult` — an `LValueExpr` whose value is a `FunctionDefn`
    (with `lvalueBase(lv)` identified by a number);
  * `varFnResult` — an `LValueExpr` whose value is a `VariableDefn`;
    `varAnalyzeOk` is the outcome of
    `analyzeValueDefn(var, Task_PrepTypeComparison)`;
  * `nonCallable` — anything else (`diag.fatal`). -/
inductive LookupResult : Type where
  | fnResult (base : Option Nat) (f : SFn)
  | varFnResult (varAnalyzeOk : Bool) (vt : VarTy)
  | nonCallable
  deriving DecidableEq, Repr

/-- Outcome of the overload-gathering loop of `callName`: the normal exit
with the accumulated `success` flag and candidates, the early
`return false;` on line 106 (a null `Expr*`), or the non-returning
`diag.fatal` of line 132. -/
inductive LoopOut : Type where
  | ok (success : Bool) (cands : List Cand)
  | nullReturn
  | fatalAbort
  deriving DecidableEq, Repr

/-- The `for` loop over `results` in `callName` (lines 95-134),
transcribed case by case. -/
def overloadLoop : List LookupResult → Bool → List Cand → LoopOut
  | [], success, cands => .ok success cands
  | r :: rest, success, cands =>
      match r with
      | .fnResult base f =>
          let (ok, cands) := addOverload cands base f
          overloadLoop rest (success && ok) cands
      | .varFnResult varOk vt =>
          if !varOk then .nullReturn
          else
            match vt with
            | .fnType ftid assignOk =>
                let (ok, cands) := addOverloadFty cands ftid assignOk
                overloadLoop rest (success && ok) cands
            | .boundMethod ftid assignOk =>
                let (ok, cands) := addOverloadFty cands ftid assignOk
                overloadLoop rest (success && ok) cands
            | .otherTy => overloadLoop rest success cands
      | .nonCallable => .fatalAbort

/-- A definition found by the ADL scope lookup: a `FunctionDefn` or
something else (skipped by the `dyn_cast`). -/
inductive LookupResult2 : Type where
  | fn (f : SFn)
  | other (id : Nat)
  deriving DecidableEq, Repr

/-- A dealiased argument type, as consulted by `lookupByArgType`:
its identity (`typesSearched` holds pointers) and the member table of
`typeDefn()->definingScope()` when both are non-null.  `lookupMember`
with `inherit = true` is modelled from the spec as the ordered entries
under each name, supertype matches already appended. -/
structure DTy where
  tid : Nat
  scopeMembers : Option (List (Nat × LookupResult2))
  deriving Repr

/-- An argument type as consulted by `lookupByArgType` (lines 186-203):
`isSingular()` plus the result of `dealias` (Type.cpp, outside this
snapshot; modelled per the spec's "the set of argument types
(dealiased)"). -/
structure STy where
  singular : Bool
  dealiasTo : Option DTy
  deriving Repr

/-- A reduced call argument: `arg->type()` may be null. -/
structure SArg where
  ty : Option STy
  deriving Repr

/-- `lookupMember(name, defns, true)` on the modelled member table:
the entries recorded under `name`. -/
def lookupMember (mems : List (Nat × LookupResult2)) (name : Nat) :
    List LookupResult2 :=
  (mems.filter fun m => m.1 == name).map (·.2)

/-- The first loop of `lookupByArgType` (lines 186-203): for each
argument with a non-null singular type, dealias; if non-null and not yet
in `typesSearched`, record it and append the defining scope's lookup
results for `name` (when type-defn and defining scope are non-null).
Returns (typesSearched, defns). -/
def adlCollect (name : Nat) :
    List SArg → List Nat → List LookupResult2 → List Nat × List LookupResult2
  | [], searched, defns => (searched, defns)
  | a :: rest, searched, defns =>
      match a.ty with
      | some t =>
          if t.singular then
            match t.dealiasTo with
            | some d =>
                if d.tid ∈ searched then adlCollect name rest searched defns
                else
                  let defns :=
                    match d.scopeMembers with
                    | some mems => defns ++ lookupMember mems name
                    | none => defns
                  adlCollect name rest (searched ++ [d.tid]) defns
            | none => adlCollect name rest searched defns
          else adlCollect name rest searched defns
      | none => adlCollect name rest searched defns

/-- The second loop of `lookupByArgType` (lines 213-221): for each found
`FunctionDefn` of static or global storage not already in `methodsFound`,
insert it into the set and add it as an overload (`addOverload`'s return
value is discarded there). -/
def adlAdd : List LookupResult2 → List (Option Nat) → List Cand → List Cand
  | [], _, cands => cands
  | d :: rest, found, cands =>
      match d with
      | .fn f =>
          if (f.storage == .staticSC || f.storage == .globalSC) &&
              !(found.contains (some f.fid)) then
            adlAdd rest (found ++ [some f.fid]) (addOverload cands none f).2
          else adlAdd rest found cands
      | .other _ => adlAdd rest found cands

/-- `ExprAnalyzer::lookupByArgType` (lines 180-222): collect definitions
from the defining scopes of the distinct dealiased singular argument
types, seed `methodsFound` with the methods of the existing candidates,
then add the new static/global functions as overloads. -/
def lookupByArgType (name : Nat) (args : List SArg) (cands : List Cand) :
    List Cand :=
  let defns := (adlCollect name args [] []).2
  adlAdd defns (cands.map Cand.methodFid) cands

/-- Diagnostics of `callName` relevant here (`diag.fatal` aborts and is
kept as an outcome instead). -/
inductive Diag : Type where
  | undefinedMethod
  | noMatchingMethod
  deriving DecidableEq, Repr

/-- Result of `callName`: a null `Expr*` (from `return NULL` on the
optional path or from the `return false;` slip on line 106),
`Expr::ErrorVal`, a `diag.fatal` abort, or a well-formed `CallExpr` with
its final candidate list. -/
inductive CallNameOut : Type where
  | nullExpr
  | errorVal
  | fatal
  | callExpr (cands : List Cand)
  deriving DecidableEq, Repr

/-- `ExprAnalyzer::callName` (ExprAnalyzerCall.cpp lines 46-178) on the
function-call path (the branch where `getTypesFromExprs` finds no type
definitions; the constructor branch is `callConstructor`, embedded in the
`Ctor` namespace).  Inputs: whether the callee was an unqualified `Id`,
the `isOptional` flag, the `lookupName` results, the outcome of
`reduceArgList` together with the reduced arguments, and the interned
call name.  Output: the produced expression and the diagnostics
emitted by this function itself. -/
def callName (isUnqualified isOptional : Bool) (results : List LookupResult)
    (reduceOk : Bool) (args : List SArg) (name : Nat) :
    CallNameOut × List Diag :=
  if results.isEmpty && !isUnqualified then
    if isOptional then (.nullExpr, [])
    else (.errorVal, [.undefinedMethod])
  else
    match overloadLoop results true [] with
    | .nullReturn => (.nullExpr, [])
    | .fatalAbort => (.fatal, [])
    | .ok success cands =>
        if !reduceOk then (.errorVal, [])
        else
          let cands :=
            if isUnqualified && !args.isEmpty then lookupByArgType name args cands
            else cands
          if !success then (.errorVal, [])
          else if results.isEmpty then (.errorVal, [.undefinedMethod])
          else if cands.isEmpty then (.errorVal, [.noMatchingMethod])
          else (.callExpr cands, [])

/-- The candidate list of the call after the optional ADL step — the list
against which the `call->candidates().empty()` check on line 153 runs. -/
def finalCands (isUnqualified : Bool) (args : List SArg) (name : Nat)
    (cands : List Cand) : List Cand :=
  if isUnqualified && !args.isEmpty then lookupByArgType name args cands
  else cands

/-- A concrete global function found by ADL (analysis and parameter
assignment both succeed). -/
def adlFnEx : SFn := ⟨42, .globalSC, true, true⟩

/-- The member table of the defining scope of the example argument type:
the function `adlFnEx` recorded under name 0. -/
def adlScopeEx : List (Nat × LookupResult2) := [(0, .fn adlFnEx)]

/-- A concrete reduced argument with a singular type that dealiases to a
type whose defining scope is `adlScopeEx`. -/
def adlArgEx : SArg := ⟨some ⟨true, some ⟨3, some adlScopeEx⟩⟩⟩

/-- A concrete overload whose parameter assignment fails (rejected
silently by `addOverload`). -/
def failingOverloadEx : SFn := ⟨1, .globalSC, true, false⟩

/-- A lookup result carrying `failingOverloadEx`. -/
def failingResultEx : LookupResult := .fnResult none failingOverloadEx

end Sema

namespace Ctor

/-- The receiver handed to `addOverload` for a constructor candidate:
the `NewExpr(T)` built for `construct` members, or NULL for static
`create` factories. -/
inductive Recv : Type where
  | newExpr
  | nullBase
  deriving DecidableEq, Repr

/-- The member scope of a non-template type `T`, as consulted by
`callConstructor` (ExprAnalyzerCall.cpp lines 359-396):
`lookupMember(istrings.idConstruct, methods, false)` yields
`constructOwn`, `lookupMember(istrings.idCreate, methods, false)` yields
`createOwn`, and `lookupMember(istrings.idConstruct, methods, true)`
yields the non-inherited entries followed by the inherited ones
(modelled from the spec's lookup description: inherited matches are
appended after this scope's matches). -/
structure MemberScope where
  constructOwn : List Sema.SFn
  createOwn : List Sema.SFn
  constructInherited : List Sema.SFn
  deriving Repr

/-- Feed one stage's methods through `addOverload` (whose return value is
discarded in `callConstructor`), with the given receiver: a candidate is
pushed iff `analyzeValueDefn` and the parameter assignment succeed. -/
def addAll (base : Recv) (fns : List Sema.SFn) : List (Recv × Sema.SFn) :=
  (fns.filter fun f => f.analyzeOk && f.assignOk).map fun f => (base, f)

/-- The filter applied inside the `create` stage: a `create` member
contributes an overload only when `storageClass() == Storage_Static`
(line 376). -/
def staticOnly (fns : List Sema.SFn) : List Sema.SFn :=
  fns.filter fun f => f.storage == .staticSC

/-- Candidate gathering of `ExprAnalyzer::callConstructor` for a
non-template type (the `else` branch, lines 359-396), faithful to the
`if / else if / else if / else` chain:
  1. non-inherited `construct` members, each with a `NewExpr(T)` receiver;
  2. otherwise, non-inherited `create` members with static storage, with a
     null receiver;
  3. otherwise, `construct` members with inheritance, each with a
     `NewExpr(T)` receiver;
  4. otherwise the "No constructors found" error path (`none`). -/
def callConstructorCands (ms : MemberScope) : Option (List (Recv × Sema.SFn)) :=
  if !ms.constructOwn.isEmpty then
    some (addAll .newExpr ms.constructOwn)
  else if !ms.createOwn.isEmpty then
    some (addAll .nullBase (staticOnly ms.createOwn))
  else if !(ms.constructOwn ++ ms.constructInherited).isEmpty then
    some (addAll .newExpr (ms.constructOwn ++ ms.constructInherited))
  else
    none

/-- A concrete `construct` member (instance storage, both external steps
succeed). -/
def constructEx : Sema.SFn := ⟨10, .instanceSC, true, true⟩

/-- A concrete static `create` member. -/
def createEx : Sema.SFn := ⟨11, .staticSC, true, true⟩

/-- A member scope declaring BOTH a `construct` and a `create` member. -/
def msEx : MemberScope := ⟨[constructEx], [createEx], []⟩

end Ctor

/-! ## Theorems -/

theorem sweep_mem_marked {l : List Sweep.Obj} {o : Sweep.Obj}
    (h : o ∈ Sweep.sweep l) : o.marked = true := by
  induction l with
  | nil => simp [Sweep.sweep] at h
  | cons g rest ih =>
    by_cases hm : g.marked = true
    · rw [Sweep.sweep, if_pos hm] at h
      rcases List.mem_cons.mp h with h1 | h2
      · rw [h1]; exact hm
      · exact ih h2
    · rw [Sweep.sweep, if_neg hm] at h
      exact ih h

theorem sweep_idem (l : List Sweep.Obj) :
    Sweep.sweep (Sweep.sweep l) = Sweep.sweep l := by
  induction l with
  | nil => rfl
  | cons g rest ih =>
    by_cases hm : g.marked = true
    · rw [Sweep.sweep, if_pos hm, Sweep.sweep, if_pos hm, ih]
    · rw [Sweep.sweep, if_neg hm, ih]

/-- Claim C10: after `GC::sweep` returns, every surviving (marked) object
still has its mark bit set — the sweep loop removes and frees unmarked
objects from the allocation list but never clears the mark of survivors —
so a second `sweep` with no intervening re-marking reclaims none of the
survivors. -/
theorem gc_sweep_survivors_stay_marked (l : List Sweep.Obj) :
    (∀ o ∈ Sweep.sweep l, o.marked = true) ∧
    Sweep.sweep (Sweep.sweep l) = Sweep.sweep l :=
  ⟨fun _ ho => sweep_mem_marked ho, sweep_idem l⟩

/-- Witness for C10 on a concrete two-object allocation list (one marked
object, one unmarked). -/
theorem gc_sweep_survivors_stay_marked_witness :
    Sweep.sweep (Sweep.sweep [⟨0, true⟩, ⟨1, false⟩]) =
      Sweep.sweep [⟨0, true⟩, ⟨1, false⟩] :=
  (gc_sweep_survivors_stay_marked [⟨0, true⟩, ⟨1, false⟩]).2

/-- Claim C8: for every pair of scopes `s` and `p`, `DelegatingScope(s, p)`
yields a scope whose `parentScope()` is exactly the `p` passed in (the
constructor body's `p = s->parentScope()` assigns the parameter, a dead
store, so there is no silent override by the parent of `s`), while
`addMember`, `lookupMember`, `allowOverloads` and `getBaseExpr` all forward
to the delegate `s`. -/
theorem delegatingScope_parent_and_forwarding (s : Scopes.SK)
    (p : Option Scopes.SK) :
    Scopes.parentScope (Scopes.mkDelegatingScope s p) = p ∧
    (∀ n inherit, Scopes.lookupMember (Scopes.mkDelegatingScope s p) n inherit =
        Scopes.lookupMember s n inherit) ∧
    Scopes.allowOverloads (Scopes.mkDelegatingScope s p) =
      Scopes.allowOverloads s ∧
    Scopes.getBaseExpr (Scopes.mkDelegatingScope s p) = Scopes.getBaseExpr s ∧
    (∀ m, Scopes.addMember (Scopes.mkDelegatingScope s p) m =
        Scopes.SK.delegating (Scopes.addMember s m) p) :=
  ⟨rfl, fun _ _ => rfl, rfl, rfl, fun _ => rfl⟩

/-- Claim C9 (code bug): `LocalScope` declares no `allowOverloads`
override, so virtual dispatch resolves to `IterableScope::allowOverloads`
and a local scope reports `true` — contradicting both the claim and the
comment in Scope.h ("Local scopes and parameter scopes do not" allow
overloading). Evaluated here at a concrete `LocalScope`. -/
theorem localScope_allowOverloads_is_true :
    Scopes.allowOverloads Scopes.localScopeEx = true := rfl

/-- Claim C6 (code bug): `ExprAnalyzer::callName` does NOT return a
well-formed expression or `Expr::ErrorVal` on every failure path: when
`analyzeValueDefn` fails for a variable lookup result, line 106 executes
`return false;` inside an `Expr *` function, producing a null expression
pointer. Evaluated at a concrete failing input. -/
theorem callName_returns_null_on_failed_var_analysis :
    Sema.callName true false [.varFnResult false .otherTy] true [] 0 =
      (.nullExpr, []) := rfl

/-- Claim C7 counterexample: for the pointer-only union of two reference
types and a target type that is not a member (`getTypeIndex` is −1),
`genUnionTypeTest` emits a runtime composite type test, not the
compile-time constant false. -/
theorem unionTypeTest_nonmember_counterexample :
    UnionGen.refUnionEx.getTypeIndex UnionGen.nonMemberEx = -1 ∧
    UnionGen.genUnionTypeTest UnionGen.refUnionEx UnionGen.nonMemberEx =
      UnionGen.IRVal.compositeTest ∧
    UnionGen.genUnionTypeTest UnionGen.refUnionEx UnionGen.nonMemberEx ≠
      UnionGen.IRVal.constFalse := by
  refine ⟨rfl, rfl, ?_⟩
  decide

/-- Claim C7 amended: for a union with at least one value-type member or
a void member (a tagged union), a type-test against a non-member target
(`getTypeIndex < 0`) yields the compile-time constant false; for a
pointer-only union the generator always emits a runtime composite type
test, even against a non-member. -/
theorem unionTypeTest_nonmember_amended (u : UnionGen.UnionType)
    (t : UnionGen.MTy) :
    (0 < u.numValueTypes ∨ u.hasVoidType = true →
        u.getTypeIndex t < 0 →
        UnionGen.genUnionTypeTest u t = UnionGen.IRVal.constFalse) ∧
    (u.numValueTypes = 0 → u.hasVoidType = false →
        UnionGen.genUnionTypeTest u t = UnionGen.IRVal.compositeTest) := by
  constructor
  · intro h hmiss
    have hcond : (decide (u.numValueTypes > 0) || u.hasVoidType) = true := by
      rcases h with h | h
      · simp [h]
      · simp [h]
    simp [UnionGen.genUnionTypeTest, hcond, hmiss]
  · intro h0 hv
    simp [UnionGen.genUnionTypeTest, h0, hv]

/-- Witness for the amended C7: the tagged one-member union against a
non-member target produces constant false. -/
theorem unionTypeTest_nonmember_amended_witness :
    UnionGen.genUnionTypeTest UnionGen.taggedUnionEx UnionGen.nonMemberEx =
      UnionGen.IRVal.constFalse :=
  (unionTypeTest_nonmember_amended UnionGen.taggedUnionEx
      UnionGen.nonMemberEx).1 (Or.inl (by decide)) (by decide)

theorem allSingular_toList : ∀ (args : CFGExpr.SExprList),
    CFGExpr.SExprList.allSingular args =
      (CFGExpr.SExprList.toList args).all fun c => c.isSingular
  | .nil => rfl
  | .cons e rest => by
      simp [CFGExpr.SExprList.allSingular, CFGExpr.SExprList.toList,
        List.all_cons, allSingular_toList rest]

/-- Claim C1 counterexample: the concrete `FnCallExpr` whose own result
type is not singular but whose function is singular and argument list is
empty answers `isSingular() = true`, while the claimed biconditional
(own type singular and all children singular) computes false. -/
theorem isSingular_own_type_counterexample :
    CFGExpr.SExpr.isSingular CFGExpr.fnCallEx = true ∧
    CFGExpr.SExpr.claimedSingular CFGExpr.fnCallEx = false := by
  constructor <;> rfl

/-- Claim C1 amended: `isSingular()` checks the node's own result type
together with its children only for `UnaryExpr`, `BinaryExpr`,
`BinaryOpcodeExpr` and `NewExpr`; `LValueExpr`, `ScopeNameExpr`,
`InitVarExpr`, `BoundMethodExpr`, `FnCallExpr`, `IndirectCallExpr`,
`CallExpr` and `InstanceOfExpr` determine singularity from their children
(plus attached definitions, candidates, or the instance-of target type)
and never consult the node's own result type. -/
theorem isSingular_amended :
    (∀ ty a, (CFGExpr.SExpr.unary ty a).isSingular =
        (CFGExpr.SExpr.unary ty a).claimedSingular) ∧
    (∀ ty f s, (CFGExpr.SExpr.binary ty f s).isSingular =
        (CFGExpr.SExpr.binary ty f s).claimedSingular) ∧
    (∀ ty f s, (CFGExpr.SExpr.binaryOpcode ty f s).isSingular =
        (CFGExpr.SExpr.binaryOpcode ty f s).claimedSingular) ∧
    (∀ ty, (CFGExpr.SExpr.newE ty).isSingular =
        (CFGExpr.SExpr.newE ty).claimedSingular) ∧
    (∀ ty ty2 base v, (CFGExpr.SExpr.lvalue ty base v).isSingular =
        ((CFGExpr.SExpr.lvalue ty2 base v).childrenSingular && v.singular)) ∧
    (∀ ty, (CFGExpr.SExpr.scopeName ty).isSingular = true) ∧
    (∀ ty ty2 v i, (CFGExpr.SExpr.initVar ty v i).isSingular =
        ((CFGExpr.SExpr.initVar ty2 v i).childrenSingular && v.singular)) ∧
    (∀ ty ty2 sf m, (CFGExpr.SExpr.boundMethod ty sf m).isSingular =
        ((CFGExpr.SExpr.boundMethod ty2 sf m).childrenSingular && m.singular)) ∧
    (∀ ty ty2 f args, (CFGExpr.SExpr.fnCall ty f args).isSingular =
        (f.singular && (CFGExpr.SExpr.fnCall ty2 f args).childrenSingular)) ∧
    (∀ ty ty2 f args, (CFGExpr.SExpr.indirectCall ty f args).isSingular =
        (CFGExpr.SExpr.indirectCall ty2 f args).childrenSingular) ∧
    (∀ ty ty2 fn cands args, (CFGExpr.SExpr.callE ty fn cands args).isSingular =
        (CFGExpr.SExpr.callE ty2 fn cands args).isSingular) ∧
    (∀ ty ty2 v t2, (CFGExpr.SExpr.instanceOf ty v t2).isSingular =
        ((CFGExpr.SExpr.instanceOf ty2 v t2).childrenSingular && t2.singular)) := by
  refine ⟨?_, ?_, ?_, ?_, ?_, ?_, ?_, ?_, ?_, ?_, ?_, ?_⟩
  · intro ty a
    simp [CFGExpr.SExpr.isSingular, CFGExpr.SExpr.claimedSingular,
      CFGExpr.SExpr.children, CFGExpr.SExpr.exprTy]
  · intro ty f s
    simp [CFGExpr.SExpr.isSingular, CFGExpr.SExpr.claimedSingular,
      CFGExpr.SExpr.children, CFGExpr.SExpr.exprTy, Bool.and_assoc]
  · intro ty f s
    simp [CFGExpr.SExpr.isSingular, CFGExpr.SExpr.claimedSingular,
      CFGExpr.SExpr.children, CFGExpr.SExpr.exprTy, Bool.and_assoc]
  · intro ty
    simp [CFGExpr.SExpr.isSingular, CFGExpr.SExpr.claimedSingular,
      CFGExpr.SExpr.children, CFGExpr.SExpr.exprTy]
  · intro ty ty2 base v
    cases base <;>
      simp [CFGExpr.SExpr.isSingular, CFGExpr.SExpr.childrenSingular,
        CFGExpr.SExpr.children, Option.toList]
  · intro ty
    rfl
  · intro ty ty2 v i
    simp [CFGExpr.SExpr.isSingular, CFGExpr.SExpr.childrenSingular,
      CFGExpr.SExpr.children, Bool.and_comm]
  · intro ty ty2 sf m
    cases sf <;>
      simp [CFGExpr.SExpr.isSingular, CFGExpr.SExpr.childrenSingular,
        CFGExpr.SExpr.children, Option.toList]
  · intro ty ty2 f args
    simp [CFGExpr.SExpr.isSingular, CFGExpr.SExpr.childrenSingular,
      CFGExpr.SExpr.children, allSingular_toList]
  · intro ty ty2 f args
    simp [CFGExpr.SExpr.isSingular, CFGExpr.SExpr.childrenSingular,
      CFGExpr.SExpr.children, allSingular_toList]
  · intro ty ty2 fn cands args
    unfold CFGExpr.SExpr.isSingular
    rfl
  · intro ty ty2 v t2
    simp [CFGExpr.SExpr.isSingular, CFGExpr.SExpr.childrenSingular,
      CFGExpr.SExpr.children]

theorem srt_agree_some (l : List CallTy.Cand) (T : CallTy.CTy)
    (h : ∀ cc ∈ l, cc.culled = false → cc.consideredType = T) :
    CallTy.srtLoop l (some T) = some T := by
  induction l with
  | nil => rfl
  | cons cc rest ih =>
    by_cases hc : cc.culled = true
    · rw [CallTy.srtLoop, if_pos hc]
      exact ih fun c hm hcul => h c (List.mem_cons_of_mem _ hm) hcul
    · have hty : cc.consideredType = T :=
        h cc (List.mem_cons_self _ _) (Bool.not_eq_true _ ▸ hc)
      rw [CallTy.srtLoop, if_neg hc, hty, if_pos rfl]
      exact ih fun c hm hcul => h c (List.mem_cons_of_mem _ hm) hcul

theorem srt_first_agree (l : List CallTy.Cand) (cc0 : CallTy.Cand)
    (h0 : CallTy.firstNonCulled l = some cc0)
    (h : ∀ cc ∈ l, cc.culled = false → cc.consideredType = cc0.consideredType) :
    CallTy.srtLoop l none = some cc0.consideredType := by
  induction l with
  | nil => simp [CallTy.firstNonCulled] at h0
  | cons cc rest ih =>
    by_cases hc : cc.culled = true
    · rw [CallTy.firstNonCulled, if_pos hc] at h0
      rw [CallTy.srtLoop, if_pos hc]
      exact ih h0 fun c hm hcul => h c (List.mem_cons_of_mem _ hm) hcul
    · rw [CallTy.firstNonCulled, if_neg hc] at h0
      have hcc : cc = cc0 := Option.some_injective _ h0
      subst hcc
      rw [CallTy.srtLoop, if_neg hc]
      exact srt_agree_some rest _
        fun c hm hcul => h c (List.mem_cons_of_mem _ hm) hcul

theorem srt_some_all (l : List CallTy.Cand) (S T : CallTy.CTy)
    (h : CallTy.srtLoop l (some S) = some T) :
    T = S ∧ ∀ cc ∈ l, cc.culled = false → cc.consideredType = S := by
  induction l generalizing S with
  | nil =>
    rw [CallTy.srtLoop] at h
    exact ⟨(Option.some_injective _ h).symm, by simp⟩
  | cons cc rest ih =>
    by_cases hc : cc.culled = true
    · rw [CallTy.srtLoop, if_pos hc] at h
      rcases ih S h with ⟨hT, hall⟩
      refine ⟨hT, ?_⟩
      intro c hm hcul
      rcases List.mem_cons.mp hm with h1 | h2
      · rw [h1] at hcul; rw [hcul] at hc; exact absurd hc Bool.false_ne_true
      · exact hall c h2 hcul
    · rw [CallTy.srtLoop, if_neg hc] at h
      by_cases he : cc.consideredType = S
      · rw [if_pos he] at h
        rcases ih S h with ⟨hT, hall⟩
        refine ⟨hT, ?_⟩
        intro c hm hcul
        rcases List.mem_cons.mp hm with h1 | h2
        · rw [h1]; exact he
        · exact hall c h2 hcul
      · rw [if_neg he] at h
        exact absurd h (by simp)

theorem srt_none_all (l : List CallTy.Cand) (T : CallTy.CTy)
    (h : CallTy.srtLoop l none = some T) :
    ∀ cc ∈ l, cc.culled = false → cc.consideredType = T := by
  induction l with
  | nil => simp
  | cons cc rest ih =>
    by_cases hc : cc.culled = true
    · rw [CallTy.srtLoop, if_pos hc] at h
      intro c hm hcul
      rcases List.mem_cons.mp hm with h1 | h2
      · rw [h1] at hcul; rw [hcul] at hc; exact absurd hc Bool.false_ne_true
      · exact ih h c h2 hcul
    · rw [CallTy.srtLoop, if_neg hc] at h
      rcases srt_some_all rest cc.consideredType T h with ⟨hT, hall⟩
      intro c hm hcul
      rcases List.mem_cons.mp hm with h1 | h2
      · rw [h1, hT]
      · rw [hall c h2 hcul, hT]

theorem firstNonCulled_mem (l : List CallTy.Cand) (cc0 : CallTy.Cand)
    (h : CallTy.firstNonCulled l = some cc0) :
    cc0 ∈ l ∧ cc0.culled = false := by
  induction l with
  | nil => simp [CallTy.firstNonCulled] at h
  | cons cc rest ih =>
    by_cases hc : cc.culled = true
    · rw [CallTy.firstNonCulled, if_pos hc] at h
      rcases ih h with ⟨hm, hcul⟩
      exact ⟨List.mem_cons_of_mem _ hm, hcul⟩
    · rw [CallTy.firstNonCulled, if_neg hc] at h
      have hcc : cc = cc0 := Option.some_injective _ h
      subst hcc
      exact ⟨List.mem_cons_self _ _, Bool.not_eq_true _ ▸ hc⟩

/-- Claim C3: after argument reduction, the call's result type equals
`singularResultType()` when all non-culled candidates agree on the
considered result type, and otherwise is a `ResultOfConstraint` over the
call; for a candidate whose method is a constructor, the type considered
is the receiver (self-parameter) type, not the function's void return
type.  `cc0` is the first non-culled candidate. -/
theorem reduceReturnType_spec (cands : List CallTy.Cand) (cc0 : CallTy.Cand)
    (h0 : CallTy.firstNonCulled cands = some cc0) :
    ((∀ cc ∈ cands, cc.culled = false →
          cc.consideredType = cc0.consideredType) →
        CallTy.reduceReturnType cands =
            CallTy.ReducedTy.ty cc0.consideredType ∧
        CallTy.singularResultType cands = some cc0.consideredType) ∧
    ((∃ cc ∈ cands, cc.culled = false ∧
          cc.consideredType ≠ cc0.consideredType) →
        CallTy.reduceReturnType cands = CallTy.ReducedTy.resultOfConstraint) ∧
    (∀ m, cc0.method = some m → m.isCtor = true →
        cc0.consideredType = m.selfParamType) := by
  refine ⟨?_, ?_, ?_⟩
  · intro hagree
    have h := srt_first_agree cands cc0 h0 hagree
    constructor
    · rw [CallTy.reduceReturnType, CallTy.singularResultType, h]
    · rw [CallTy.singularResultType, h]
  · rintro ⟨cc, hmem, hcul, hne⟩
    rcases hres : CallTy.srtLoop cands none with _ | T
    · rw [CallTy.reduceReturnType, CallTy.singularResultType, hres]
    · exfalso
      have hcc := srt_none_all cands T hres cc hmem hcul
      rcases firstNonCulled_mem cands cc0 h0 with ⟨hm0, hc0⟩
      have hcc0 := srt_none_all cands T hres cc0 hm0 hc0
      exact hne (hcc.trans hcc0.symm)
  · intro m hm hc
    simp [CallTy.Cand.consideredType, hm, hc]

/-- Witness for C3 at a one-candidate list whose sole candidate is a
constructor: the reduced type is the self-parameter type. -/
theorem reduceReturnType_spec_witness :
    CallTy.reduceReturnType [CallTy.ctorCandEx] =
      CallTy.ReducedTy.ty (CallTy.Cand.consideredType CallTy.ctorCandEx) :=
  ((reduceReturnType_spec [CallTy.ctorCandEx] CallTy.ctorCandEx (by decide)).1
    (by decide)).1

theorem mem_addAll {base : Ctor.Recv} {fns : List Sema.SFn}
    {c : Ctor.Recv × Sema.SFn} (h : c ∈ Ctor.addAll base fns) :
    c.1 = base ∧ c.2 ∈ fns := by
  rcases List.mem_map.mp h with ⟨f, hf, hc⟩
  rw [← hc]
  exact ⟨rfl, List.mem_of_mem_filter hf⟩

/-- Claim C2: for a constructor call on a non-template type, candidates
are searched in a fixed order — non-inherited `construct` members first
(each with a `NewExpr` receiver), then static `create` members only when
no `construct` was found, then inherited `construct` members as a last
resort; in particular when both `construct` and `create` exist, only the
`construct` members become candidates. -/
theorem callConstructor_order (ms : Ctor.MemberScope) :
    (ms.constructOwn ≠ [] →
        Ctor.callConstructorCands ms =
          some (Ctor.addAll Ctor.Recv.newExpr ms.constructOwn) ∧
        ∀ c ∈ Ctor.addAll Ctor.Recv.newExpr ms.constructOwn,
          c.1 = Ctor.Recv.newExpr ∧ c.2 ∈ ms.constructOwn) ∧
    (ms.constructOwn = [] → ms.createOwn ≠ [] →
        Ctor.callConstructorCands ms =
          some (Ctor.addAll Ctor.Recv.nullBase (Ctor.staticOnly ms.createOwn)) ∧
        ∀ c ∈ Ctor.addAll Ctor.Recv.nullBase (Ctor.staticOnly ms.createOwn),
          c.1 = Ctor.Recv.nullBase ∧ c.2 ∈ ms.createOwn ∧
            c.2.storage = Sema.StorageClass.staticSC) ∧
    (ms.constructOwn = [] → ms.createOwn = [] → ms.constructInherited ≠ [] →
        Ctor.callConstructorCands ms =
          some (Ctor.addAll Ctor.Recv.newExpr ms.constructInherited) ∧
        ∀ c ∈ Ctor.addAll Ctor.Recv.newExpr ms.constructInherited,
          c.1 = Ctor.Recv.newExpr ∧ c.2 ∈ ms.constructInherited) := by
  refine ⟨?_, ?_, ?_⟩
  · intro h
    refine ⟨?_, fun c hc => mem_addAll hc⟩
    rcases hco : ms.constructOwn with _ | ⟨f, fs⟩
    · exact absurd hco h
    · simp [Ctor.callConstructorCands, hco]
  · intro h0 h1
    constructor
    · rcases hcr : ms.createOwn with _ | ⟨f, fs⟩
      · exact absurd hcr h1
      · simp [Ctor.callConstructorCands, h0, hcr]
    · intro c hc
      rcases List.mem_map.mp hc with ⟨f, hf, hcb⟩
      have hst : f ∈ Ctor.staticOnly ms.createOwn := List.mem_of_mem_filter hf
      rcases List.mem_filter.mp hst with ⟨hmem, hbeq⟩
      rw [← hcb]
      exact ⟨rfl, hmem, by simpa using hbeq⟩
  · intro h0 h1 h2
    refine ⟨?_, fun c hc => mem_addAll hc⟩
    rcases hci : ms.constructInherited with _ | ⟨f, fs⟩
    · exact absurd hci h2
    · simp [Ctor.callConstructorCands, h0, h1, hci]

/-- Witness for C2: with both a `construct` and a `create` member
declared, the candidate list is exactly the processed `construct` stage
(the `create` factory never becomes a candidate). -/
theorem callConstructor_order_witness :
    Ctor.callConstructorCands Ctor.msEx =
      some (Ctor.addAll Ctor.Recv.newExpr Ctor.msEx.constructOwn) :=
  ((callConstructor_order Ctor.msEx).1 (by decide)).1

theorem adlAdd_decomp (defns : List Sema.LookupResult2) :
    ∀ (found : List (Option Nat)) (cands : List Sema.Cand),
    ∃ added, Sema.adlAdd defns found cands = cands ++ added ∧
      ∀ c ∈ added, ∃ f : Sema.SFn, c = Sema.Cand.methodCand none f ∧
        (f.storage = Sema.StorageClass.staticSC ∨
          f.storage = Sema.StorageClass.globalSC) ∧
        ¬ some f.fid ∈ found := by
  induction defns with
  | nil =>
    intro found cands
    exact ⟨[], by simp [Sema.adlAdd], by simp⟩
  | cons d rest ih =>
    intro found cands
    cases d with
    | other i =>
      rcases ih found cands with ⟨added, heq, hprop⟩
      refine ⟨added, ?_, hprop⟩
      simp only [Sema.adlAdd]
      exact heq
    | fn f =>
      by_cases hcond : ((f.storage == Sema.StorageClass.staticSC ||
          f.storage == Sema.StorageClass.globalSC) &&
          !(found.contains (some f.fid))) = true
      · have hparts := hcond
        simp only [Bool.and_eq_true, Bool.or_eq_true, beq_iff_eq] at hparts
        obtain ⟨hstor, hcont⟩ := hparts
        have hnotmem : ¬ some f.fid ∈ found := by simpa using hcont
        have haddov : ∃ L, (Sema.addOverload cands none f).2 = cands ++ L ∧
            ∀ c ∈ L, c = Sema.Cand.methodCand none f := by
          by_cases ha : f.analyzeOk = true
          · by_cases hb : f.assignOk = true
            · exact ⟨[Sema.Cand.methodCand none f],
                by simp [Sema.addOverload, ha, hb], by simp⟩
            · exact ⟨[], by simp [Sema.addOverload, ha, hb], by simp⟩
          · exact ⟨[], by simp [Sema.addOverload, ha], by simp⟩
        rcases haddov with ⟨L, hL, hLprop⟩
        rcases ih (found ++ [some f.fid]) ((Sema.addOverload cands none f).2)
          with ⟨added2, heq2, hprop2⟩
        refine ⟨L ++ added2, ?_, ?_⟩
        · simp only [Sema.adlAdd]
          rw [if_pos hcond, heq2, hL, List.append_assoc]
        · intro c hc
          rcases List.mem_append.mp hc with h1 | h2
          · exact ⟨f, hLprop c h1, hstor, hnotmem⟩
          · rcases hprop2 c h2 with ⟨f2, hcf, hst, hnm⟩
            exact ⟨f2, hcf, hst, fun hm => hnm (List.mem_append_left _ hm)⟩
      · rcases ih found cands with ⟨added, heq, hprop⟩
        refine ⟨added, ?_, hprop⟩
        simp only [Sema.adlAdd]
        rw [if_neg hcond]
        exact heq

theorem adlCollect_nodup (name : Nat) (args : List Sema.SArg) :
    ∀ (searched : List Nat) (defns : List Sema.LookupResult2),
      searched.Nodup → (Sema.adlCollect name args searched defns).1.Nodup := by
  induction args with
  | nil =>
    intro s d h
    simpa [Sema.adlCollect] using h
  | cons a rest ih =>
    intro s d h
    cases hty : a.ty with
    | none =>
      simp only [Sema.adlCollect, hty]
      exact ih s d h
    | some t =>
      by_cases hs : t.singular = true
      · cases hde : t.dealiasTo with
        | none =>
          simp only [Sema.adlCollect, hty, hs, hde, if_true]
          exact ih s d h
        | some dd =>
          by_cases hmem : dd.tid ∈ s
          · simp only [Sema.adlCollect, hty, hs, hde, if_true, if_pos hmem]
            exact ih s d h
          · have hnd : (s ++ [dd.tid]).Nodup := by
              simp [List.nodup_append, h, hmem]
            simp only [Sema.adlCollect, hty, hs, hde, if_true, if_neg hmem]
            exact ih _ _ hnd
      · simp only [Sema.adlCollect, hty, hs]
        exact ih s d h

theorem adlCollect_extends (name : Nat) (args : List Sema.SArg) :
    ∀ (s : List Nat) (ds : List Sema.LookupResult2),
      (∃ e, (Sema.adlCollect name args s ds).1 = s ++ e) ∧
      (∃ e, (Sema.adlCollect name args s ds).2 = ds ++ e) := by
  induction args with
  | nil =>
    intro s ds
    exact ⟨⟨[], by simp [Sema.adlCollect]⟩, ⟨[], by simp [Sema.adlCollect]⟩⟩
  | cons a rest ih =>
    intro s ds
    cases hty : a.ty with
    | none =>
      simp only [Sema.adlCollect, hty]
      exact ih s ds
    | some t =>
      by_cases hs : t.singular = true
      · cases hde : t.dealiasTo with
        | none =>
          simp only [Sema.adlCollect, hty, hs, hde, if_true]
          exact ih s ds
        | some dd =>
          by_cases hmem : dd.tid ∈ s
          · simp only [Sema.adlCollect, hty, hs, hde, if_true, if_pos hmem]
            exact ih s ds
          · cases hsm : dd.scopeMembers with
            | none =>
              simp only [Sema.adlCollect, hty, hs, hde, hsm, if_true,
                if_neg hmem]
              rcases ih (s ++ [dd.tid]) ds with ⟨⟨e1, h1⟩, hpart2⟩
              exact ⟨⟨[dd.tid] ++ e1, by rw [h1, List.append_assoc]⟩, hpart2⟩
            | some mems =>
              simp only [Sema.adlCollect, hty, hs, hde, hsm, if_true,
                if_neg hmem]
              rcases ih (s ++ [dd.tid]) (ds ++ Sema.lookupMember mems name)
                with ⟨⟨e1, h1⟩, ⟨e2, h2⟩⟩
              exact ⟨⟨[dd.tid] ++ e1, by rw [h1, List.append_assoc]⟩,
                ⟨Sema.lookupMember mems name ++ e2,
                  by rw [h2, List.append_assoc]⟩⟩
      · simp only [Sema.adlCollect, hty, hs]
        exact ih s ds

theorem adlCollect_cons_cases (name : Nat) (a : Sema.SArg)
    (rest : List Sema.SArg) (s : List Nat) (ds : List Sema.LookupResult2) :
    Sema.adlCollect name (a :: rest) s ds = Sema.adlCollect name rest s ds ∨
    (∃ t d, a.ty = some t ∧ t.singular = true ∧ t.dealiasTo = some d ∧
      d.tid ∉ s ∧
      Sema.adlCollect name (a :: rest) s ds =
        Sema.adlCollect name rest (s ++ [d.tid])
          (match d.scopeMembers with
           | some mems => ds ++ Sema.lookupMember mems name
           | none => ds)) := by
  cases hty : a.ty with
  | none =>
    left
    simp only [Sema.adlCollect, hty]
  | some t =>
    by_cases hs : t.singular = true
    · cases hde : t.dealiasTo with
      | none =>
        left
        simp only [Sema.adlCollect, hty, hs, hde, if_true]
      | some d =>
        by_cases hmem : d.tid ∈ s
        · left
          simp only [Sema.adlCollect, hty, hs, hde, if_true, if_pos hmem]
        · right
          exact ⟨t, d, rfl, hs, hde, hmem,
            by simp only [Sema.adlCollect, hty, hs, hde, if_true,
              if_neg hmem]⟩
    · left
      simp only [Sema.adlCollect, hty]
      rw [if_neg hs]

theorem adlCollect_tid_searched (name : Nat) (args : List Sema.SArg) :
    ∀ (s : List Nat) (ds : List Sema.LookupResult2) (a : Sema.SArg)
      (t : Sema.STy) (d : Sema.DTy),
      a ∈ args → a.ty = some t → t.singular = true → t.dealiasTo = some d →
      d.tid ∈ (Sema.adlCollect name args s ds).1 := by
  induction args with
  | nil =>
    intro s ds a t d ha
    simp at ha
  | cons a0 rest ih =>
    intro s ds a t d ha hty hs hde
    rcases List.mem_cons.mp ha with h1 | h2
    · have hty0 : a0.ty = some t := h1 ▸ hty
      by_cases hmem : d.tid ∈ s
      · rcases adlCollect_cons_cases name a0 rest s ds with
          heq | ⟨t0, d0, _, _, _, _, heq⟩
        · rw [heq]
          rcases (adlCollect_extends name rest s ds).1 with ⟨e, he⟩
          rw [he]
          exact List.mem_append_left _ hmem
        · rw [heq]
          rcases (adlCollect_extends name rest (s ++ [d0.tid]) _).1
            with ⟨e, he⟩
          rw [he]
          exact List.mem_append_left _ (List.mem_append_left _ hmem)
      · simp only [Sema.adlCollect, hty0, hs, hde, if_true, if_neg hmem]
        rcases (adlCollect_extends name rest (s ++ [d.tid]) _).1 with ⟨e, he⟩
        rw [he]
        exact List.mem_append_left _ (by simp)
    · rcases adlCollect_cons_cases name a0 rest s ds with
        heq | ⟨t0, d0, _, _, _, _, heq⟩
      · rw [heq]
        exact ih s ds a t d h2 hty hs hde
      · rw [heq]
        exact ih _ _ a t d h2 hty hs hde

theorem adlCollect_scope_searched (name : Nat) (args : List Sema.SArg) :
    ∀ (s : List Nat) (ds : List Sema.LookupResult2) (a : Sema.SArg)
      (t : Sema.STy) (d : Sema.DTy) (mems : List (Nat × Sema.LookupResult2)),
      a ∈ args → a.ty = some t → t.singular = true → t.dealiasTo = some d →
      d.scopeMembers = some mems → d.tid ∉ s →
      (∀ a2 ∈ args, ∀ (t2 : Sema.STy) (d2 : Sema.DTy), a2.ty = some t2 →
        t2.singular = true → t2.dealiasTo = some d2 → d2.tid = d.tid →
        d2 = d) →
      ∀ r ∈ Sema.lookupMember mems name,
        r ∈ (Sema.adlCollect name args s ds).2 := by
  induction args with
  | nil =>
    intro s ds a t d mems ha
    simp at ha
  | cons a0 rest ih =>
    intro s ds a t d mems ha hty hs hde hsm hns hinj r hr
    rcases List.mem_cons.mp ha with h1 | h2
    · have hty0 : a0.ty = some t := h1 ▸ hty
      simp only [Sema.adlCollect, hty0, hs, hde, hsm, if_true, if_neg hns]
      rcases (adlCollect_extends name rest (s ++ [d.tid])
          (ds ++ Sema.lookupMember mems name)).2 with ⟨e, he⟩
      rw [he]
      exact List.mem_append_left _ (List.mem_append_right _ hr)
    · rcases adlCollect_cons_cases name a0 rest s ds with
        heq | ⟨t0, d0, hty0, hs0, hde0, hnm0, heq⟩
      · rw [heq]
        exact ih s ds a t d mems h2 hty hs hde hsm hns
          (fun a2 ha2 => hinj a2 (List.mem_cons_of_mem _ ha2)) r hr
      · by_cases htid : d0.tid = d.tid
        · have hd0 : d0 = d :=
            hinj a0 (List.mem_cons_self _ _) t0 d0 hty0 hs0 hde0 htid
          rw [hd0] at heq
          rw [heq]
          simp only [hsm]
          rcases (adlCollect_extends name rest (s ++ [d.tid])
              (ds ++ Sema.lookupMember mems name)).2 with ⟨e, he⟩
          rw [he]
          exact List.mem_append_left _ (List.mem_append_right _ hr)
        · have hns2 : d.tid ∉ s ++ [d0.tid] := by
            intro hm
            rcases List.mem_append.mp hm with hm1 | hm2
            · exact hns hm1
            · simp at hm2
              exact htid hm2.symm
          rw [heq]
          exact ih _ _ a t d mems h2 hty hs hde hsm hns2
            (fun a2 ha2 => hinj a2 (List.mem_cons_of_mem _ ha2)) r hr

theorem adlAdd_found_added (defns : List Sema.LookupResult2) :
    ∀ (found : List (Option Nat)) (cands : List Sema.Cand) (f : Sema.SFn),
      Sema.LookupResult2.fn f ∈ defns →
      (∀ g : Sema.SFn, Sema.LookupResult2.fn g ∈ defns → g.fid = f.fid →
        g = f) →
      (f.storage = Sema.StorageClass.staticSC ∨
        f.storage = Sema.StorageClass.globalSC) →
      f.analyzeOk = true → f.assignOk = true →
      some f.fid ∉ found →
      Sema.Cand.methodCand none f ∈ Sema.adlAdd defns found cands := by
  induction defns with
  | nil =>
    intro found cands f hf
    simp at hf
  | cons d rest ih =>
    intro found cands f hf hinj hstor ha hb hnf
    cases d with
    | other i =>
      have h2 : Sema.LookupResult2.fn f ∈ rest := by
        rcases List.mem_cons.mp hf with h1 | h2
        · cases h1
        · exact h2
      simp only [Sema.adlAdd]
      exact ih found cands f h2
        (fun g hg => hinj g (List.mem_cons_of_mem _ hg)) hstor ha hb hnf
    | fn g =>
      by_cases hfid : g.fid = f.fid
      · have hg : g = f := hinj g (List.mem_cons_self _ _) hfid
        rw [hg]
        have hcond : ((f.storage == Sema.StorageClass.staticSC ||
            f.storage == Sema.StorageClass.globalSC) &&
            !(found.contains (some f.fid))) = true := by
          rcases hstor with h | h <;> simp [h, hnf]
        have hpush : (Sema.addOverload cands none f).2 =
            cands ++ [Sema.Cand.methodCand none f] := by
          simp [Sema.addOverload, ha, hb]
        simp only [Sema.adlAdd]
        rw [if_pos hcond, hpush]
        rcases adlAdd_decomp rest (found ++ [some f.fid])
            (cands ++ [Sema.Cand.methodCand none f]) with ⟨added, heq, _⟩
        rw [heq]
        exact List.mem_append_left _ (List.mem_append_right _ (by simp))
      · have h2 : Sema.LookupResult2.fn f ∈ rest := by
          rcases List.mem_cons.mp hf with h1 | h2
          · injection h1 with hfg
            exact absurd (by rw [hfg]) hfid
          · exact h2
        simp only [Sema.adlAdd]
        by_cases hcond : ((g.storage == Sema.StorageClass.staticSC ||
            g.storage == Sema.StorageClass.globalSC) &&
            !(found.contains (some g.fid))) = true
        · rw [if_pos hcond]
          refine ih (found ++ [some g.fid]) _ f h2
            (fun g2 hg2 => hinj g2 (List.mem_cons_of_mem _ hg2)) hstor ha hb
            ?_
          intro hm
          rcases List.mem_append.mp hm with hm1 | hm2
          · exact hnf hm1
          · have hfe : some f.fid = some g.fid := by simpa using hm2
            exact hfid (Option.some_injective _ hfe).symm
        · rw [if_neg hcond]
          exact ih found cands f h2
            (fun g2 hg2 => hinj g2 (List.mem_cons_of_mem _ hg2)) hstor ha hb
            hnf

/-- Claim C4: for a call whose callee was written as an unqualified name
with at least one argument, argument-dependent lookup runs exactly once
after initial candidate gathering, and in both directions: (a) the
candidates it appends are exactly static/global functions not already a
candidate's method; (b) every distinct dealiased singular argument type
is recorded in `typesSearched` and its defining scope's lookup results
for the same name are contributed to the found definitions (the
injectivity hypotheses express C++ pointer identity: a type id or
function id determines the object); (c) every static- or
global-storage function found whose external analysis and parameter
assignment succeed (the same `addOverload` filter every overload goes
through) and that is not already a candidate's method IS added as an
overload candidate of the same call, which (d) participates in the same
resolution inside `callName`. -/
theorem adl_once_and_filtered (name : Nat) (args : List Sema.SArg)
    (cands0 : List Sema.Cand) (isOptional : Bool)
    (results : List Sema.LookupResult) :
    (∃ added, Sema.lookupByArgType name args cands0 = cands0 ++ added ∧
        ∀ c ∈ added, ∃ f : Sema.SFn, c = Sema.Cand.methodCand none f ∧
          (f.storage = Sema.StorageClass.staticSC ∨
            f.storage = Sema.StorageClass.globalSC) ∧
          ∀ c0 ∈ cands0, Sema.Cand.methodFid c0 ≠ some f.fid) ∧
    (Sema.adlCollect name args [] []).1.Nodup ∧
    (∀ a ∈ args, ∀ (t : Sema.STy) (d : Sema.DTy),
        a.ty = some t → t.singular = true → t.dealiasTo = some d →
        d.tid ∈ (Sema.adlCollect name args [] []).1 ∧
        ((∀ a2 ∈ args, ∀ (t2 : Sema.STy) (d2 : Sema.DTy), a2.ty = some t2 →
            t2.singular = true → t2.dealiasTo = some d2 → d2.tid = d.tid →
            d2 = d) →
          ∀ mems, d.scopeMembers = some mems →
          ∀ r ∈ Sema.lookupMember mems name,
            r ∈ (Sema.adlCollect name args [] []).2)) ∧
    (∀ f : Sema.SFn,
        Sema.LookupResult2.fn f ∈ (Sema.adlCollect name args [] []).2 →
        (∀ g : Sema.SFn,
          Sema.LookupResult2.fn g ∈ (Sema.adlCollect name args [] []).2 →
          g.fid = f.fid → g = f) →
        (f.storage = Sema.StorageClass.staticSC ∨
          f.storage = Sema.StorageClass.globalSC) →
        f.analyzeOk = true → f.assignOk = true →
        (∀ c0 ∈ cands0, Sema.Cand.methodFid c0 ≠ some f.fid) →
        Sema.Cand.methodCand none f ∈ Sema.lookupByArgType name args cands0) ∧
    (args ≠ [] →
        Sema.overloadLoop results true [] = Sema.LoopOut.ok true cands0 →
        results ≠ [] → Sema.lookupByArgType name args cands0 ≠ [] →
        Sema.callName true isOptional results true args name =
          (Sema.CallNameOut.callExpr (Sema.lookupByArgType name args cands0),
            [])) := by
  refine ⟨?_, adlCollect_nodup name args [] [] List.nodup_nil, ?_, ?_, ?_⟩
  · rcases adlAdd_decomp ((Sema.adlCollect name args [] []).2)
        (cands0.map Sema.Cand.methodFid) cands0 with ⟨added, heq, hprop⟩
    refine ⟨added, ?_, ?_⟩
    · simp only [Sema.lookupByArgType]
      exact heq
    · intro c hc
      rcases hprop c hc with ⟨f, hcf, hst, hnm⟩
      refine ⟨f, hcf, hst, ?_⟩
      intro c0 hc0 heqfid
      exact hnm (List.mem_map.mpr ⟨c0, hc0, heqfid⟩)
  · intro a ha t d hty hs hde
    refine ⟨adlCollect_tid_searched name args [] [] a t d ha hty hs hde, ?_⟩
    intro hinj mems hsm r hr
    exact adlCollect_scope_searched name args [] [] a t d mems ha hty hs hde
      hsm (by simp) hinj r hr
  · intro f hf hinj hstor ha hb hnc
    have hnf : some f.fid ∉ cands0.map Sema.Cand.methodFid := by
      intro hm
      rcases List.mem_map.mp hm with ⟨c0, hc0, hfid⟩
      exact hnc c0 hc0 hfid
    simp only [Sema.lookupByArgType]
    exact adlAdd_found_added ((Sema.adlCollect name args [] []).2)
      (cands0.map Sema.Cand.methodFid) cands0 f hf hinj hstor ha hb hnf
  · intro hargs hloop hres hne
    have hre : results.isEmpty = false := by
      simp [List.isEmpty_iff, hres]
    have hae : args.isEmpty = false := by
      simp [List.isEmpty_iff, hargs]
    have hce : (Sema.lookupByArgType name args cands0).isEmpty = false := by
      simp [List.isEmpty_iff, hne]
    simp [Sema.callName, hre, hae, hce, hloop]

/-- Witness for C4: a concrete unqualified call whose only initial
overload is rejected by parameter assignment; ADL finds the global
function `adlFnEx` through the argument type's defining scope and the
call resolves over the ADL-contributed candidate list. -/
theorem adl_once_and_filtered_witness :
    Sema.callName true false [Sema.failingResultEx] true [Sema.adlArgEx] 0 =
      (Sema.CallNameOut.callExpr (Sema.lookupByArgType 0 [Sema.adlArgEx] []),
        []) :=
  ((adl_once_and_filtered 0 [Sema.adlArgEx] [] false
      [Sema.failingResultEx]).2.2.2.2)
    (by simp) (by decide) (by simp) (by decide)

/-- Claim C5: an overload whose parameter assignment fails is rejected
silently — `addOverload` pushes no candidate, emits no diagnostic and
still reports success — and `callName` emits the "no matching method"
diagnostic exactly when, after every overload (and ADL) was tried, the
candidate list of the call is empty. -/
theorem addOverload_silent_and_no_matching_diag (f : Sema.SFn)
    (cands : List Sema.Cand) (base : Option Nat) :
    (f.analyzeOk = true → f.assignOk = false →
        Sema.addOverload cands base f = (true, cands)) ∧
    (∀ u o rs rOk args n,
        Sema.Diag.noMatchingMethod ∈ (Sema.callName u o rs rOk args n).2 →
        ∃ c0, Sema.overloadLoop rs true [] = Sema.LoopOut.ok true c0 ∧
          rs ≠ [] ∧ Sema.finalCands u args n c0 = []) ∧
    (∀ u o rs rOk args n c0,
        Sema.overloadLoop rs true [] = Sema.LoopOut.ok true c0 →
        rOk = true → rs ≠ [] → Sema.finalCands u args n c0 = [] →
        Sema.callName u o rs rOk args n =
          (Sema.CallNameOut.errorVal, [Sema.Diag.noMatchingMethod])) := by
  refine ⟨?_, ?_, ?_⟩
  · intro ha hb
    simp [Sema.addOverload, ha, hb]
  · intro u o rs rOk args n hmem
    cases h1 : (rs.isEmpty && !u) with
    | true =>
      cases o <;> simp [Sema.callName, h1] at hmem
    | false =>
      cases hloop2 : Sema.overloadLoop rs true [] with
      | nullReturn => simp [Sema.callName, h1, hloop2] at hmem
      | fatalAbort => simp [Sema.callName, h1, hloop2] at hmem
      | ok s c0 =>
        cases rOk with
        | false => simp [Sema.callName, h1, hloop2] at hmem
        | true =>
          cases s with
          | false => simp [Sema.callName, h1, hloop2] at hmem
          | true =>
            cases hre2 : rs.isEmpty with
            | true =>
              have hu : u = true := by
                rw [hre2] at h1
                simpa using h1
              simp [Sema.callName, h1, hloop2, hre2, hu] at hmem
            | false =>
              cases hfc : (Sema.finalCands u args n c0).isEmpty with
              | true =>
                refine ⟨c0, rfl, ?_, List.isEmpty_iff.mp hfc⟩
                intro hh
                rw [hh] at hre2
                simp at hre2
              | false =>
                exfalso
                have hfc2 := hfc
                simp only [Sema.finalCands] at hfc2
                simp [Sema.callName, h1, hloop2, hre2, hfc2] at hmem
  · intro u o rs rOk args n c0 hloop hrOk hres hfc
    subst hrOk
    have hre : rs.isEmpty = false := by simp [List.isEmpty_iff, hres]
    have hfc2 := hfc
    simp only [Sema.finalCands] at hfc2
    simp [Sema.callName, hre, hloop, hfc2]

/-- Witness for C5: the concrete overload whose parameter assignment
fails is rejected with no candidate pushed while `addOverload` still
reports success. -/
theorem addOverload_silent_and_no_matching_diag_witness :
    Sema.addOverload [] none Sema.failingOverloadEx = (true, []) :=
  (addOverload_silent_and_no_matching_diag Sema.failingOverloadEx [] none).1
    rfl rfl
